import Mathlib

/-!
# Verification of the record-pool allocation and import engine

A shallow embedding of the CSV-backed pool engine of `bot.py`
(`_read_csv` row model, `_count_user_records`, `_assign_records_csv`,
`_get_existing_values`, `_add_new_values`, `allocate_for_user`, the
`/clear` unlock action and the statistics computation), together with
theorems settling the specification's claims about it.

A pool is modelled as the list of CSV rows returned by `_read_csv`:
the first row is the header, every following row is one record
`[Value, ID, Username, Date]` (rows may be shorter or longer; the code
pads them on demand).  All fields are strings; the ID cell is written
with Python `str(user_id)` and read back with `int(cell)`, which we
model with `pyStrOfInt` / `parsePyInt` below.
-/

namespace PoolBot

/-! ## Definitions -/

/-- One digit of `n` in base 10, most significant first.
Models the digit sequence produced by Python `str` on a non-negative int. -/
def natDigits (n : Nat) : List Nat :=
  if h : n < 10 then [n] else natDigits (n / 10) ++ [n % 10]
  termination_by n
  decreasing_by exact Nat.div_lt_self (by omega) (by omega)

/-- Decimal rendering of a natural number, one character per digit. -/
def natRepr (n : Nat) : String :=
  ⟨(natDigits n).map Nat.digitChar⟩

/-- Models Python `str` applied to an `int`: a minus sign for negative
numbers followed by the decimal digits. -/
def pyStrOfInt (i : Int) : String :=
  if i < 0 then "-" ++ natRepr i.natAbs else natRepr i.toNat

/-- Numeric value of a decimal digit character. -/
def digitVal (c : Char) : Nat := c.toNat - 48

/-- Parses a non-empty all-digit character list as a natural number. -/
def parseNatDigits (cs : List Char) : Option Nat :=
  if cs ≠ [] ∧ cs.all (·.isDigit) then
    some (cs.foldl (fun a c => a * 10 + digitVal c) 0)
  else none

/-- Models Python `int(s)` on a string cell: an optional sign followed by
decimal digits.  (Python additionally tolerates surrounding whitespace and
underscores between digits; such cells are never produced by the program
and are immaterial to the claims.) -/
def parsePyInt (s : String) : Option Int :=
  match s.toList with
  | [] => none
  | c :: rest =>
    if c = '-' then (parseNatDigits rest).map (fun n => -(Int.ofNat n))
    else if c = '+' then (parseNatDigits rest).map (fun n => Int.ofNat n)
    else (parseNatDigits (c :: rest)).map (fun n => Int.ofNat n)

/-- ASCII whitespace, as stripped by Python `str.strip()`.  (Python also
strips some Unicode whitespace; such characters never occur in this
data.) -/
def isSpaceChar (c : Char) : Bool :=
  c = ' ' || c = '\t' || c = '\n' || c = '\r' || c = '\x0b' || c = '\x0c'

/-- Python `str.strip()`: remove leading and trailing whitespace. -/
def pyStrip (s : String) : String :=
  ⟨((s.data.dropWhile isSpaceChar).reverse.dropWhile isSpaceChar).reverse⟩

/-- Python `str.lower()` on the ASCII range. -/
def pyToLower (s : String) : String :=
  ⟨s.data.map Char.toLower⟩

/-- `if s.startswith("="): s = s[1:]` from `clean_value` and
`_assign_records_csv`. -/
def stripEqSign (s : String) : String :=
  match s.data with
  | '=' :: rest => ⟨rest⟩
  | _ => s

/-- A cell of the bulk-import input: empty, a numeric cell whose value is
integral (the `isinstance(val, float) and val.is_integer()` branch of
`clean_value`), or a text cell. -/
inductive Cell where
  | blank : Cell
  | num : Int → Cell
  | str : String → Cell
deriving DecidableEq

/-- `clean_value` from `bot.py`: integral numbers are rendered without the
trailing `.0`, strings are stripped of surrounding whitespace and of one
leading `=`, and empty results become `None`. -/
def clean_value : Cell → Option String
  | .blank => none
  | .num n => some (pyStrOfInt n)
  | .str v =>
    let s := stripEqSign (pyStrip v)
    if s = "" then none else some s

/-- The value normalization performed inside `_assign_records_csv`:
`row[0].strip()` followed by removal of one leading `=`. -/
def normValue (v : String) : String :=
  stripEqSign (pyStrip v)

/-- The claim test of `_count_user_records`: the row has a non-empty ID
cell and `int(cell)` equals `user_id`. -/
def claimedByB (uid : Int) (r : List String) : Bool :=
  decide (r.getD 1 "" ≠ "" ∧ parsePyInt (r.getD 1 "") = some uid)

/-- `_count_user_records` from `bot.py`: how many records (header
excluded) are claimed by `uid`. -/
def _count_user_records (rows : List (List String)) (uid : Int) : Nat :=
  (rows.drop 1).countP (claimedByB uid)

/-- The free test of the supply check in `allocate_for_user`:
`len(r) < 2 or not r[1]`. -/
def freeB (r : List String) : Bool :=
  decide (r.length < 2 ∨ r.getD 1 "" = "")

/-- `row.extend([""] * (4 - len(row)))` from `_assign_records_csv`. -/
def padRow (r : List String) : List String :=
  r ++ List.replicate (4 - r.length) ""

/-- The scan loop of `_assign_records_csv` over the record rows (header
already removed), carrying the list `taken` of values claimed so far.
Returns the mutated rows and the final `taken`. -/
def assignGo (cnt : Nat) (uid : Int) (uname now : String) :
    List (List String) → List String → List (List String) × List String
  | [], taken => ([], taken)
  | r :: rest, taken =>
    if taken.length ≥ cnt then (r :: rest, taken)
    else
      let row := padRow r
      if row.getD 1 "" ≠ "" then
        let p := assignGo cnt uid uname now rest taken
        (row :: p.1, p.2)
      else
        let value := normValue (row.getD 0 "")
        if value = "" then
          let p := assignGo cnt uid uname now rest taken
          (row :: p.1, p.2)
        else
          let newRow := ((row.set 1 (pyStrOfInt uid)).set 2 uname).set 3 now
          let p := assignGo cnt uid uname now rest (taken ++ [value])
          (newRow :: p.1, p.2)

/-- `_assign_records_csv` from `bot.py`: claims up to `cnt` free records
with non-empty normalized values, in storage order, for `uid`. -/
def _assign_records_csv (rows : List (List String)) (cnt : Nat)
    (uid : Int) (uname now : String) : List (List String) × List String :=
  match rows with
  | [] => ([], [])
  | header :: recs =>
    let p := assignGo cnt uid uname now recs []
    (header :: p.1, p.2)

/-- `_get_existing_values` from `bot.py`: the stripped, lowercased values
of all rows with a non-empty first cell (header excluded).  The Python
set is modelled as a list with membership. -/
def _get_existing_values (rows : List (List String)) : List String :=
  (rows.drop 1).filterMap (fun r =>
    match r.head? with
    | some v => if v ≠ "" then some (pyToLower (pyStrip v)) else none
    | none => none)

/-- The loop of `_add_new_values`, carrying the rows, the in-memory
`existing` set (as a list) and the count of added records. -/
def addGo (vals : List Cell) (rows : List (List String))
    (existing : List String) (added : Nat) : List (List String) × Nat :=
  match vals with
  | [] => (rows, added)
  | v :: rest =>
    match clean_value v with
    | none => addGo rest rows existing added
    | some vc =>
      if pyToLower vc ∈ existing then addGo rest rows existing added
      else addGo rest (rows ++ [[vc, "", "", ""]]) (pyToLower vc :: existing) (added + 1)

/-- `_add_new_values` from `bot.py`: de-duplicating bulk import into one
pool.  Returns the resulting rows and the number of added records.
(The CSV file is rewritten only when the count is positive; since no
append happened otherwise, the returned rows equal the input rows in
that case and directly model the persistent state.) -/
def _add_new_values (rows : List (List String)) (vals : List Cell) :
    List (List String) × Nat :=
  addGo vals rows (_get_existing_values rows) 0

/-- Result of one `allocate_for_user` call: the persisted rows, the list
of claimed values, the refusal reason (`none` means success) and whether
the pool file was rewritten. -/
structure AllocResult where
  rows : List (List String)
  taken : List String
  reason : Option String
  wrote : Bool
deriving DecidableEq

/-- The `_worker` of `allocate_for_user` from `bot.py`, with the quota
inputs (`info["limit"]` and the ledger's extra limit) and the loaded rows
passed explicitly.  `rows` in the result is the durable state after the
call: the file is rewritten only when at least one record was taken. -/
def allocate_for_user (base extra : Nat) (rows : List (List String))
    (uid : Int) (uname now : String) : AllocResult :=
  let total_allowed := base + extra
  let current := _count_user_records rows uid
  if current ≥ total_allowed then ⟨rows, [], some "already_got", false⟩
  else
    let can_give := total_allowed - current
    let free_count := rows.countP freeB
    if free_count < can_give then ⟨rows, [], some "not_enough", false⟩
    else
      let p := _assign_records_csv rows can_give uid uname now
      ⟨if p.2.isEmpty then rows else p.1, p.2, none, !p.2.isEmpty⟩

/-- The values the scan of `_assign_records_csv` can claim, in storage
order: unclaimed rows whose normalized value is non-empty. -/
def claimableRecs (recs : List (List String)) : List String :=
  recs.filterMap (fun r =>
    if r.getD 1 "" ≠ "" then none
    else if normValue (r.getD 0 "") = "" then none
    else some (normValue (r.getD 0 "")))

/-- The spec's dedup rule, operationalized from its words: walk the batch
in order, normalize each candidate, and accept it exactly when its
lowercased form matches neither an existing pool value nor an earlier
accepted candidate (first occurrence wins). -/
def specAccept (existing : List String) : List Cell → List String
  | [] => []
  | v :: rest =>
    match clean_value v with
    | none => specAccept existing rest
    | some vc =>
      if pyToLower vc ∈ existing then specAccept existing rest
      else vc :: specAccept (pyToLower vc :: existing) rest

/-- The normalized, lowercased form of a candidate. -/
def cleanLower (v : Cell) : Option String := (clean_value v).map pyToLower

/-- Splits a character list on a separator, like Python `split` with an
explicit separator (used to model `strptime` field splitting). -/
def splitOnChar (c : Char) : List Char → List (List Char)
  | [] => [[]]
  | x :: xs =>
    if x = c then [] :: splitOnChar c xs
    else
      match splitOnChar c xs with
      | [] => [[x]]
      | g :: gs => (x :: g) :: gs

def isLeap (y : Nat) : Bool :=
  y % 4 = 0 && (y % 100 ≠ 0 || y % 400 = 0)

def daysInMonth (y m : Nat) : Nat :=
  if m = 2 then (if isLeap y then 29 else 28)
  else if m = 4 ∨ m = 6 ∨ m = 9 ∨ m = 11 then 30 else 31

/-- Days since 1970-01-01 of a Gregorian date (`y ≥ 1`). -/
def daysFromCivil (y m d : Nat) : Int :=
  let y2 := if m ≤ 2 then y - 1 else y
  let era := y2 / 400
  let yoe := y2 % 400
  let mp := if 2 < m then m - 3 else m + 9
  let doy := (153 * mp + 2) / 5 + (d - 1)
  let doe := yoe * 365 + yoe / 4 - yoe / 100 + doy
  (Int.ofNat (era * 146097 + doe)) - 719468

/-- Seconds since epoch of a timestamp, modelling naive `datetime`
comparison and `timedelta` subtraction as linear time. -/
def tsOfYmdhms (y mo d h mi s : Nat) : Int :=
  daysFromCivil y mo d * 86400 + Int.ofNat (h * 3600 + mi * 60 + s)

/-- Models `datetime.strptime(cell, "%Y.%m.%d %H:%M:%S")` followed by the
`datetime` validity checks: a four-digit year, one-or-two-digit numeric
fields in range, and a day valid for the month.  Returns the parsed
instant as epoch seconds, or `none` on any mismatch (the code catches
`ValueError` and skips the row). -/
def parseTs (s : String) : Option Int :=
  match splitOnChar ' ' s.toList with
  | [ds, ts] =>
    match splitOnChar '.' ds, splitOnChar ':' ts with
    | [ys, ms, dds], [hs, mis, ss] =>
      match parseNatDigits ys, parseNatDigits ms, parseNatDigits dds,
            parseNatDigits hs, parseNatDigits mis, parseNatDigits ss with
      | some y, some mo, some d, some h, some mi, some sec =>
        if ys.length = 4 ∧ ms.length ≤ 2 ∧ dds.length ≤ 2 ∧ hs.length ≤ 2
            ∧ mis.length ≤ 2 ∧ ss.length ≤ 2 ∧ 1 ≤ y ∧ 1 ≤ mo ∧ mo ≤ 12
            ∧ 1 ≤ d ∧ d ≤ daysInMonth y mo ∧ h ≤ 23 ∧ mi ≤ 59 ∧ sec ≤ 59
        then some (tsOfYmdhms y mo d h mi sec)
        else none
      | _, _, _, _, _, _ => none
    | _, _ => none
  | _ => none

/-- The per-row window loop of `_count_stats` in `on_stats`: for each
record with a parseable issue date, bump the day/week/month counters when
the date is at or after `now` minus 1, 7, resp. 30 days. -/
def statsWindows (now : Int) : List (List String) → Nat × Nat × Nat
  | [] => (0, 0, 0)
  | r :: rest =>
    let p := statsWindows now rest
    if 4 ≤ r.length ∧ r.getD 3 "" ≠ "" then
      match parseTs (r.getD 3 "") with
      | some t =>
        ((if now - 86400 ≤ t then p.1 + 1 else p.1),
         (if now - 604800 ≤ t then p.2.1 + 1 else p.2.1),
         (if now - 2592000 ≤ t then p.2.2 + 1 else p.2.2))
      | none => p
    else p

/-- One pool's figures in `on_stats`: `(free, total, day, week, month)`. -/
def on_stats_pool (rows : List (List String)) (now : Int) :
    Nat × Nat × Nat × Nat × Nat :=
  let total := rows.length - 1
  let free := (rows.drop 1).countP freeB
  let w := statsWindows now (rows.drop 1)
  (free, total, w.1, w.2.1, w.2.2)

/-- A record was issued within the window `win` ending at `now`: its date
cell parses and the instant is at or after `now - win`. -/
def inWindow (now win : Int) (r : List String) : Bool :=
  match parseTs (r.getD 3 "") with
  | some t => decide (now - win ≤ t)
  | none => false

/-- The mutable state relevant to one pool: its CSV rows and the
per-identity extra-limit ledger entries for this pool (absent rows of
`user_limits.csv` mean 0). -/
structure PoolState where
  rows : List (List String)
  extra : Int → Nat

/-- One engine operation on a pool: an allocation request, a bulk
import, the `/clear` unlock for one identity, and a raw
`set_user_extra_limit` overwrite. -/
inductive Op where
  | alloc (uid : Int) (uname now : String) : Op
  | imp (vals : List Cell) : Op
  | unlock (uid : Int) : Op
  | setExtra (uid : Int) (v : Nat) : Op

def isSetExtra : Op → Bool
  | .setExtra _ _ => true
  | _ => false

/-- State transition of one operation.  `alloc` persists what
`allocate_for_user` wrote; `imp` persists the import result; `unlock`
is the per-pool body of `on_clear_command` (applied only when the user
has claims in the pool and has exhausted the current allowance);
`setExtra` is `set_user_extra_limit`. -/
def applyOp (base : Nat) (s : PoolState) : Op → PoolState
  | .alloc uid uname now =>
    { s with rows := (allocate_for_user base (s.extra uid) s.rows uid uname now).rows }
  | .imp vals => { s with rows := (_add_new_values s.rows vals).1 }
  | .unlock uid =>
    let current := _count_user_records s.rows uid
    if 1 ≤ current ∧ base + s.extra uid ≤ current then
      { s with extra := fun u => if u = uid then current else s.extra u }
    else s
  | .setExtra uid v => { s with extra := fun u => if u = uid then v else s.extra u }

def run (base : Nat) (s : PoolState) (ops : List Op) : PoolState :=
  ops.foldl (applyOp base) s

/-- The quota invariant: nobody holds more records than their current
allowance. -/
def Inv (base : Nat) (s : PoolState) : Prop :=
  ∀ uid : Int, _count_user_records s.rows uid ≤ base + s.extra uid

/-! ## Theorems -/

theorem natDigits_ne_nil (n : Nat) : natDigits n ≠ [] := by
  rw [natDigits]
  split
  · simp
  · simp

theorem natDigits_all_lt (n : Nat) : ∀ d ∈ natDigits n, d < 10 := by
  induction n using Nat.strong_induction_on with
  | _ n ih =>
    rw [natDigits]
    split
    · next h => intro d hd; simp at hd; omega
    · next h =>
      intro d hd
      rcases List.mem_append.1 hd with hm | hm
      · exact ih _ (Nat.div_lt_self (by omega) (by omega)) _ hm
      · simp at hm; omega

theorem digitChar_isDigit {d : Nat} (h : d < 10) : (Nat.digitChar d).isDigit = true := by
  interval_cases d <;> decide

theorem digitVal_digitChar {d : Nat} (h : d < 10) : digitVal (Nat.digitChar d) = d := by
  interval_cases d <;> decide

theorem digitChar_ne_dash {d : Nat} (h : d < 10) : Nat.digitChar d ≠ '-' := by
  interval_cases d <;> decide

theorem digitChar_ne_plus {d : Nat} (h : d < 10) : Nat.digitChar d ≠ '+' := by
  interval_cases d <;> decide

theorem foldl_digitVal_natDigits (n : Nat) : ∀ acc : Nat,
    ((natDigits n).map Nat.digitChar).foldl (fun a c => a * 10 + digitVal c) acc
      = acc * 10 ^ (natDigits n).length + n := by
  induction n using Nat.strong_induction_on with
  | _ n ih =>
    intro acc
    rw [natDigits]
    split
    · next h =>
      simp [List.foldl, digitVal_digitChar h]
    · next h =>
      rw [List.map_append, List.foldl_append]
      rw [ih (n / 10) (Nat.div_lt_self (by omega) (by omega))]
      simp only [List.map_cons, List.map_nil, List.foldl_cons, List.foldl_nil,
        List.length_append, List.length_cons, List.length_nil]
      rw [digitVal_digitChar (show n % 10 < 10 by omega)]
      generalize (natDigits (n / 10)).length = L
      rw [pow_succ]
      have hn : n / 10 * 10 + n % 10 = n := by omega
      nlinarith [hn]

theorem toList_natRepr (n : Nat) :
    (natRepr n).toList = (natDigits n).map Nat.digitChar := rfl

theorem parseNatDigits_natRepr (n : Nat) :
    parseNatDigits (natRepr n).toList = some n := by
  rw [toList_natRepr, parseNatDigits]
  rw [if_pos]
  · rw [foldl_digitVal_natDigits]
    simp
  · constructor
    · simp [natDigits_ne_nil n]
    · rw [List.all_eq_true]
      intro c hc
      rcases List.mem_map.1 hc with ⟨d, hd, rfl⟩
      exact digitChar_isDigit (natDigits_all_lt n d hd)

theorem parsePyInt_cons {s : String} {c : Char} {rest : List Char}
    (h : s.toList = c :: rest) :
    parsePyInt s =
      (if c = '-' then (parseNatDigits rest).map (fun n => -(Int.ofNat n))
       else if c = '+' then (parseNatDigits rest).map (fun n => Int.ofNat n)
       else (parseNatDigits (c :: rest)).map (fun n => Int.ofNat n)) := by
  unfold parsePyInt
  rw [h]

theorem exists_cons_natRepr (n : Nat) :
    ∃ d ds, natDigits n = d :: ds ∧ d < 10 := by
  cases h : natDigits n with
  | nil => exact absurd h (natDigits_ne_nil n)
  | cons d ds =>
    exact ⟨d, ds, rfl, natDigits_all_lt n d (h ▸ List.mem_cons_self d ds)⟩

/-- Writing a user id with Python `str` and reading it back with `int`
recovers the id: the ID cell written by `_assign_records_csv` is counted
by `_count_user_records` exactly for that user. -/
theorem parsePyInt_pyStrOfInt (i : Int) : parsePyInt (pyStrOfInt i) = some i := by
  unfold pyStrOfInt
  split
  · next hneg =>
    have hl : ("-" ++ natRepr i.natAbs).toList = '-' :: (natRepr i.natAbs).toList := by
      show ("-" ++ natRepr i.natAbs).data = '-' :: (natRepr i.natAbs).data
      rw [String.data_append]
      rfl
    rw [parsePyInt_cons hl, if_pos rfl, parseNatDigits_natRepr]
    simp only [Option.map_some', Int.ofNat_eq_coe]
    congr 1
    omega
  · next hpos =>
    obtain ⟨d, ds, hds, hdlt⟩ := exists_cons_natRepr i.toNat
    have hl : (natRepr i.toNat).toList = Nat.digitChar d :: ds.map Nat.digitChar := by
      rw [toList_natRepr, hds, List.map_cons]
    rw [parsePyInt_cons hl, if_neg (digitChar_ne_dash hdlt),
      if_neg (digitChar_ne_plus hdlt), ← List.map_cons, ← hds, ← toList_natRepr,
      parseNatDigits_natRepr]
    simp only [Option.map_some', Int.ofNat_eq_coe]
    congr 1
    omega

/-- The written ID cell is non-empty. -/
theorem pyStrOfInt_ne_empty (i : Int) : pyStrOfInt i ≠ "" := by
  intro h
  have := parsePyInt_pyStrOfInt i
  rw [h] at this
  simp [parsePyInt] at this

/-- Padding a row with empty strings changes no field read with
default `""`. -/
theorem padRow_getD (r : List String) (j : Nat) :
    (padRow r).getD j "" = r.getD j "" := by
  unfold padRow
  rcases Nat.lt_or_ge j r.length with h | h
  · exact List.getD_append _ _ _ _ h
  · rw [List.getD_append_right _ _ _ _ h, List.getD_eq_default _ _ h]
    rcases Nat.lt_or_ge (j - r.length) (4 - r.length) with h2 | h2
    · rw [List.getD_eq_getElem _ _ (by simpa using h2)]
      simp
    · exact List.getD_eq_default _ _ (by simpa using h2)

/-- The same fact in `getElem?` normal form. -/
theorem padRow_getElem?_getD (r : List String) (j : Nat) :
    (padRow r)[j]?.getD "" = r[j]?.getD "" := by
  have h := padRow_getD r j
  rwa [List.getD_eq_getElem?_getD, List.getD_eq_getElem?_getD] at h

theorem padRow_length (r : List String) : 4 ≤ (padRow r).length := by
  unfold padRow
  simp
  omega

theorem claimableRecs_cons_claimed {r : List String} (h : r.getD 1 "" ≠ "")
    (rest : List (List String)) :
    claimableRecs (r :: rest) = claimableRecs rest :=
  List.filterMap_cons_none (if_pos h)

theorem claimableRecs_cons_empty {r : List String} (h1 : ¬ r.getD 1 "" ≠ "")
    (h0 : normValue (r.getD 0 "") = "") (rest : List (List String)) :
    claimableRecs (r :: rest) = claimableRecs rest :=
  List.filterMap_cons_none (by rw [if_neg h1]; exact if_pos h0)

theorem claimableRecs_cons_free {r : List String} (h1 : ¬ r.getD 1 "" ≠ "")
    (h0 : ¬ normValue (r.getD 0 "") = "") (rest : List (List String)) :
    claimableRecs (r :: rest) = normValue (r.getD 0 "") :: claimableRecs rest :=
  List.filterMap_cons_some (by rw [if_neg h1]; exact if_neg h0)

/-- What the scan takes: the first `cnt - acc.length` claimable values. -/
theorem assignGo_taken (cnt : Nat) (uid : Int) (uname now : String) :
    ∀ (recs : List (List String)) (acc : List String), acc.length ≤ cnt →
      (assignGo cnt uid uname now recs acc).2
        = acc ++ (claimableRecs recs).take (cnt - acc.length) := by
  intro recs
  induction recs with
  | nil => intro acc _; simp [assignGo, claimableRecs]
  | cons r rest ih =>
    intro acc hacc
    by_cases hfull : acc.length ≥ cnt
    · have hc : cnt - acc.length = 0 := by omega
      simp [assignGo, hfull, hc]
    · by_cases h1 : (padRow r).getD 1 "" ≠ ""
      · have h1r : r.getD 1 "" ≠ "" := by rwa [padRow_getD] at h1
        rw [claimableRecs_cons_claimed h1r]
        simp only [assignGo, if_neg hfull, if_pos h1]
        exact ih acc hacc
      · have h1r : ¬ r.getD 1 "" ≠ "" := by rwa [padRow_getD] at h1
        by_cases h0 : normValue ((padRow r).getD 0 "") = ""
        · have h0r : normValue (r.getD 0 "") = "" := by rwa [padRow_getD] at h0
          rw [claimableRecs_cons_empty h1r h0r]
          simp only [assignGo, if_neg hfull, if_neg h1, if_pos h0]
          exact ih acc hacc
        · have h0r : ¬ normValue (r.getD 0 "") = "" := by rwa [padRow_getD] at h0
          rw [claimableRecs_cons_free h1r h0r]
          simp only [assignGo, if_neg hfull, if_neg h1, if_neg h0]
          rw [ih (acc ++ [normValue ((padRow r).getD 0 "")]) (by simp; omega)]
          rw [show cnt - acc.length = (cnt - (acc.length + 1)) + 1 by omega,
            List.take_succ_cons]
          simp [padRow_getElem?_getD]

/-- The scan neither adds nor removes rows. -/
theorem assignGo_fst_length (cnt : Nat) (uid : Int) (uname now : String) :
    ∀ (recs : List (List String)) (acc : List String),
      (assignGo cnt uid uname now recs acc).1.length = recs.length := by
  intro recs
  induction recs with
  | nil => intro acc; simp [assignGo]
  | cons r rest ih =>
    intro acc
    by_cases hfull : acc.length ≥ cnt
    · simp [assignGo, hfull]
    · by_cases h1 : (padRow r).getD 1 "" ≠ ""
      · simp only [assignGo, if_neg hfull, if_pos h1]
        simp [ih, padRow]
      · by_cases h0 : normValue ((padRow r).getD 0 "") = ""
        · simp only [assignGo, if_neg hfull, if_neg h1, if_pos h0]
          simp [ih, padRow]
        · simp only [assignGo, if_neg hfull, if_neg h1, if_neg h0]
          simp [ih, padRow]

/-- The scan never touches a row whose ID cell is non-empty: every such
row keeps all its fields (read with default `""`). -/
theorem assignGo_preserves_claimed (cnt : Nat) (uid : Int) (uname now : String) :
    ∀ (recs : List (List String)) (acc : List String) (i : Nat) (r0 : List String),
      recs[i]? = some r0 → r0.getD 1 "" ≠ "" →
      ∃ r1, (assignGo cnt uid uname now recs acc).1[i]? = some r1 ∧
        ∀ j, r1.getD j "" = r0.getD j "" := by
  intro recs
  induction recs with
  | nil => intro acc i r0 h; simp at h
  | cons r rest ih =>
    intro acc i r0 hget hclaim
    by_cases hfull : acc.length ≥ cnt
    · refine ⟨r0, ?_, fun j => rfl⟩
      simp only [assignGo, if_pos hfull]
      exact hget
    · cases i with
      | zero =>
        rw [List.getElem?_cons_zero] at hget
        injection hget with hget
        subst hget
        have h1 : (padRow r).getD 1 "" ≠ "" := by rwa [padRow_getD]
        refine ⟨padRow r, ?_, fun j => padRow_getD r j⟩
        simp only [assignGo, if_neg hfull, if_pos h1]
        rw [List.getElem?_cons_zero]
      | succ i' =>
        rw [List.getElem?_cons_succ] at hget
        by_cases h1 : (padRow r).getD 1 "" ≠ ""
        · obtain ⟨r1, hr1, hj⟩ := ih acc i' r0 hget hclaim
          refine ⟨r1, ?_, hj⟩
          simp only [assignGo, if_neg hfull, if_pos h1]
          rw [List.getElem?_cons_succ]
          exact hr1
        · by_cases h0 : normValue ((padRow r).getD 0 "") = ""
          · obtain ⟨r1, hr1, hj⟩ := ih acc i' r0 hget hclaim
            refine ⟨r1, ?_, hj⟩
            simp only [assignGo, if_neg hfull, if_neg h1, if_pos h0]
            rw [List.getElem?_cons_succ]
            exact hr1
          · obtain ⟨r1, hr1, hj⟩ :=
              ih (acc ++ [normValue ((padRow r).getD 0 "")]) i' r0 hget hclaim
            refine ⟨r1, ?_, hj⟩
            simp only [assignGo, if_neg hfull, if_neg h1, if_neg h0]
            rw [List.getElem?_cons_succ]
            exact hr1

theorem claimedByB_padRow (uid : Int) (r : List String) :
    claimedByB uid (padRow r) = claimedByB uid r := by
  unfold claimedByB
  rw [padRow_getD]

theorem claimedByB_of_unclaimed {r : List String} (h : ¬ r.getD 1 "" ≠ "")
    (uid : Int) : claimedByB uid r = false := by
  unfold claimedByB
  simp only [decide_eq_false_iff_not]
  intro hc
  exact h hc.1

/-- The ID cell of a freshly claimed row. -/
theorem newRow_getD1 {row : List String} (h4 : 4 ≤ row.length) (x y z : String) :
    (((row.set 1 x).set 2 y).set 3 z).getD 1 "" = x := by
  rw [List.getD_eq_getElem?_getD,
    List.getElem?_set_ne (by omega : (3 : Nat) ≠ 1),
    List.getElem?_set_ne (by omega : (2 : Nat) ≠ 1),
    List.getElem?_set_self (by omega : 1 < row.length)]
  rfl

/-- A freshly claimed row is counted for `uid'` exactly when `uid' = uid`. -/
theorem claimedByB_newRow (uid uid' : Int) {row : List String}
    (h4 : 4 ≤ row.length) (y z : String) :
    claimedByB uid' (((row.set 1 (pyStrOfInt uid)).set 2 y).set 3 z)
      = decide (uid' = uid) := by
  unfold claimedByB
  rw [newRow_getD1 h4]
  rcases eq_or_ne uid' uid with rfl | hne
  · simp [pyStrOfInt_ne_empty, parsePyInt_pyStrOfInt]
  · simp only [decide_eq_decide]
    constructor
    · intro hc
      rw [parsePyInt_pyStrOfInt] at hc
      exact absurd (Option.some.injEq _ _ ▸ hc.2).symm hne
    · intro hc
      exact absurd hc hne

theorem assignGo_taken_length (cnt : Nat) (uid : Int) (uname now : String)
    (recs : List (List String)) (acc : List String) (hacc : acc.length ≤ cnt) :
    acc.length ≤ (assignGo cnt uid uname now recs acc).2.length ∧
      (assignGo cnt uid uname now recs acc).2.length ≤ cnt := by
  rw [assignGo_taken cnt uid uname now recs acc hacc]
  simp only [List.length_append, List.length_take]
  omega

/-- Effect of the scan on per-user claim counts: counts for other users
are unchanged, and the count for `uid` grows by the number of newly
taken records. -/
theorem assignGo_countP (cnt : Nat) (uid : Int) (uname now : String) (uid' : Int) :
    ∀ (recs : List (List String)) (acc : List String), acc.length ≤ cnt →
      ((assignGo cnt uid uname now recs acc).1).countP (claimedByB uid')
        = recs.countP (claimedByB uid')
          + (if uid' = uid
             then ((claimableRecs recs).take (cnt - acc.length)).length
             else 0) := by
  intro recs
  induction recs with
  | nil =>
    intro acc _
    simp [assignGo, claimableRecs]
  | cons r rest ih =>
    intro acc hacc
    by_cases hfull : acc.length ≥ cnt
    · have hc : cnt - acc.length = 0 := by omega
      simp [assignGo, hfull, hc]
    · by_cases h1 : (padRow r).getD 1 "" ≠ ""
      · have h1r : r.getD 1 "" ≠ "" := by rwa [padRow_getD] at h1
        simp only [assignGo, if_neg hfull, if_pos h1]
        rw [List.countP_cons, List.countP_cons, claimedByB_padRow,
          ih acc hacc, claimableRecs_cons_claimed h1r]
        split_ifs <;> omega
      · have h1r : ¬ r.getD 1 "" ≠ "" := by rwa [padRow_getD] at h1
        by_cases h0 : normValue ((padRow r).getD 0 "") = ""
        · have h0r : normValue (r.getD 0 "") = "" := by rwa [padRow_getD] at h0
          simp only [assignGo, if_neg hfull, if_neg h1, if_pos h0]
          rw [List.countP_cons, List.countP_cons, claimedByB_padRow,
            ih acc hacc, claimableRecs_cons_empty h1r h0r]
          split_ifs <;> omega
        · have h0r : ¬ normValue (r.getD 0 "") = "" := by rwa [padRow_getD] at h0
          simp only [assignGo, if_neg hfull, if_neg h1, if_neg h0]
          rw [List.countP_cons, List.countP_cons,
            claimedByB_newRow uid uid' (padRow_length r),
            claimedByB_of_unclaimed h1r,
            ih (acc ++ [normValue ((padRow r).getD 0 "")]) (by simp; omega)]
          simp only [List.length_append, List.length_cons, List.length_nil,
            Nat.zero_add, decide_eq_true_eq]
          rw [claimableRecs_cons_free h1r h0r,
            show cnt - acc.length = cnt - (acc.length + 1) + 1 from by omega,
            List.take_succ_cons]
          simp only [List.length_cons, Bool.false_eq_true, if_false]
          split_ifs <;> omega

theorem _assign_records_csv_taken (rows : List (List String)) (cnt : Nat)
    (uid : Int) (uname now : String) :
    (_assign_records_csv rows cnt uid uname now).2
      = (claimableRecs (rows.drop 1)).take cnt := by
  cases rows with
  | nil => simp [_assign_records_csv, claimableRecs]
  | cons header recs =>
    show (assignGo cnt uid uname now recs []).2 = _
    rw [assignGo_taken cnt uid uname now recs [] (by simp)]
    simp

theorem _assign_records_csv_countP (rows : List (List String)) (cnt : Nat)
    (uid : Int) (uname now : String) (uid' : Int) :
    ((_assign_records_csv rows cnt uid uname now).1.drop 1).countP (claimedByB uid')
      = _count_user_records rows uid'
        + (if uid' = uid then ((claimableRecs (rows.drop 1)).take cnt).length
           else 0) := by
  cases rows with
  | nil =>
    simp [_assign_records_csv, _count_user_records, claimableRecs]
  | cons header recs =>
    show (assignGo cnt uid uname now recs []).1.countP (claimedByB uid') = _
    rw [assignGo_countP cnt uid uname now uid' recs [] (by simp)]
    simp [_count_user_records]

theorem _assign_records_csv_length (rows : List (List String)) (cnt : Nat)
    (uid : Int) (uname now : String) :
    (_assign_records_csv rows cnt uid uname now).1.length = rows.length := by
  cases rows with
  | nil => simp [_assign_records_csv]
  | cons header recs =>
    show (assignGo cnt uid uname now recs []).1.length + 1 = _
    rw [assignGo_fst_length]
    simp

theorem _assign_records_csv_preserves_claimed (rows : List (List String))
    (cnt : Nat) (uid : Int) (uname now : String) (i : Nat) (r0 : List String)
    (hget : rows[i]? = some r0) (hclaim : r0.getD 1 "" ≠ "") :
    ∃ r1, (_assign_records_csv rows cnt uid uname now).1[i]? = some r1 ∧
      ∀ j, r1.getD j "" = r0.getD j "" := by
  cases rows with
  | nil => simp at hget
  | cons header recs =>
    cases i with
    | zero =>
      rw [List.getElem?_cons_zero] at hget
      injection hget with hget
      subst hget
      refine ⟨header, ?_, fun j => rfl⟩
      show (header :: (assignGo cnt uid uname now recs []).1)[0]? = some header
      rw [List.getElem?_cons_zero]
    | succ i' =>
      rw [List.getElem?_cons_succ] at hget
      obtain ⟨r1, hr1, hj⟩ :=
        assignGo_preserves_claimed cnt uid uname now recs [] i' r0 hget hclaim
      refine ⟨r1, ?_, hj⟩
      show (header :: (assignGo cnt uid uname now recs []).1)[i' + 1]? = some r1
      rw [List.getElem?_cons_succ]
      exact hr1

theorem specAccept_cons_none {v : Cell} (h : clean_value v = none)
    (E : List String) (rest : List Cell) :
    specAccept E (v :: rest) = specAccept E rest := by
  show (match clean_value v with
    | none => specAccept E rest
    | some vc => if pyToLower vc ∈ E then specAccept E rest
        else vc :: specAccept (pyToLower vc :: E) rest) = specAccept E rest
  rw [h]

theorem specAccept_cons_mem {v : Cell} {vc : String} (h : clean_value v = some vc)
    {E : List String} (hm : pyToLower vc ∈ E) (rest : List Cell) :
    specAccept E (v :: rest) = specAccept E rest := by
  show (match clean_value v with
    | none => specAccept E rest
    | some vc => if pyToLower vc ∈ E then specAccept E rest
        else vc :: specAccept (pyToLower vc :: E) rest) = specAccept E rest
  rw [h]
  exact if_pos hm

theorem specAccept_cons_new {v : Cell} {vc : String} (h : clean_value v = some vc)
    {E : List String} (hm : pyToLower vc ∉ E) (rest : List Cell) :
    specAccept E (v :: rest) = vc :: specAccept (pyToLower vc :: E) rest := by
  show (match clean_value v with
    | none => specAccept E rest
    | some vc => if pyToLower vc ∈ E then specAccept E rest
        else vc :: specAccept (pyToLower vc :: E) rest)
    = vc :: specAccept (pyToLower vc :: E) rest
  rw [h]
  exact if_neg hm

/-- The import loop appends exactly the accepted candidates as fresh
unclaimed records and counts them. -/
theorem addGo_spec : ∀ (vals : List Cell) (rows : List (List String))
    (existing : List String) (added : Nat),
    addGo vals rows existing added
      = (rows ++ (specAccept existing vals).map (fun v => [v, "", "", ""]),
         added + (specAccept existing vals).length) := by
  intro vals
  induction vals with
  | nil => intro rows existing added; simp [addGo, specAccept]
  | cons v rest ih =>
    intro rows existing added
    cases hv : clean_value v with
    | none =>
      rw [specAccept_cons_none hv]
      simp only [addGo, hv]
      exact ih rows existing added
    | some vc =>
      by_cases hm : pyToLower vc ∈ existing
      · rw [specAccept_cons_mem hv hm]
        simp only [addGo, hv]
        rw [if_pos hm]
        exact ih rows existing added
      · rw [specAccept_cons_new hv hm]
        simp only [addGo, hv]
        rw [if_neg hm, ih]
        simp [List.append_assoc]
        omega

theorem clean_value_ne_empty {c : Cell} {vc : String}
    (h : clean_value c = some vc) : vc ≠ "" := by
  cases c with
  | blank => simp [clean_value] at h
  | num n =>
    simp only [clean_value, Option.some.injEq] at h
    rw [← h]
    exact pyStrOfInt_ne_empty n
  | str v =>
    simp only [clean_value] at h
    by_cases hse : stripEqSign (pyStrip v) = ""
    · rw [if_pos hse] at h
      exact absurd h (by simp)
    · rw [if_neg hse] at h
      injection h with h
      rw [← h]
      exact hse

/-- Every accepted candidate is the normalization of some batch member. -/
theorem specAccept_mem : ∀ (vals : List Cell) (E : List String) (a : String),
    a ∈ specAccept E vals → ∃ v ∈ vals, clean_value v = some a := by
  intro vals
  induction vals with
  | nil => intro E a ha; simp [specAccept] at ha
  | cons v rest ih =>
    intro E a ha
    cases hv : clean_value v with
    | none =>
      rw [specAccept_cons_none hv] at ha
      obtain ⟨w, hw, hcw⟩ := ih E a ha
      exact ⟨w, List.mem_cons_of_mem v hw, hcw⟩
    | some vc =>
      by_cases hm : pyToLower vc ∈ E
      · rw [specAccept_cons_mem hv hm] at ha
        obtain ⟨w, hw, hcw⟩ := ih E a ha
        exact ⟨w, List.mem_cons_of_mem v hw, hcw⟩
      · rw [specAccept_cons_new hv hm] at ha
        rcases List.mem_cons.1 ha with rfl | ha2
        · exact ⟨v, List.mem_cons_self v rest, hv⟩
        · obtain ⟨w, hw, hcw⟩ := ih _ a ha2
          exact ⟨w, List.mem_cons_of_mem v hw, hcw⟩

/-- If a set `E` covers the starting set and every value accepted from
`existing`, then a second pass against `E` accepts nothing. -/
theorem specAccept_nil_of_covered :
    ∀ (vals : List Cell) (existing E : List String),
      (∀ x ∈ existing, x ∈ E) →
      (∀ a ∈ specAccept existing vals, pyToLower a ∈ E) →
      specAccept E vals = [] := by
  intro vals
  induction vals with
  | nil => intro existing E _ _; rfl
  | cons v rest ih =>
    intro existing E hsub hacc
    cases hv : clean_value v with
    | none =>
      rw [specAccept_cons_none hv]
      refine ih existing E hsub ?_
      intro a ha
      exact hacc a (by rwa [specAccept_cons_none hv])
    | some vc =>
      by_cases hm : pyToLower vc ∈ existing
      · rw [specAccept_cons_mem hv (hsub _ hm)]
        refine ih existing E hsub ?_
        intro a ha
        exact hacc a (by rwa [specAccept_cons_mem hv hm])
      · have hvcE : pyToLower vc ∈ E := by
          refine hacc vc ?_
          rw [specAccept_cons_new hv hm]
          exact List.mem_cons_self _ _
        rw [specAccept_cons_mem hv hvcE]
        refine ih (pyToLower vc :: existing) E ?_ ?_
        · intro x hx
          rcases List.mem_cons.1 hx with rfl | hx2
          · exact hvcE
          · exact hsub _ hx2
        · intro a ha
          refine hacc a ?_
          rw [specAccept_cons_new hv hm]
          exact List.mem_cons_of_mem _ ha

/-- Appending fresh records extends the existing-value set by their
stripped lowercased values (non-empty headerful pool). -/
theorem gev_append (rows : List (List String)) (hrows : rows ≠ [])
    (news : List String) :
    _get_existing_values (rows ++ news.map (fun v => [v, "", "", ""]))
      = _get_existing_values rows
        ++ news.filterMap (fun v =>
            if v ≠ "" then some (pyToLower (pyStrip v)) else none) := by
  obtain ⟨r0, rs, rfl⟩ := List.exists_cons_of_ne_nil hrows
  unfold _get_existing_values
  simp only [List.cons_append, List.drop_succ_cons, List.drop_zero]
  rw [List.filterMap_append]
  congr 1
  rw [List.filterMap_map]
  rfl

/-- The accepted count is the number of distinct normalized lowercased
candidate values that avoid the existing set. -/
theorem specAccept_length : ∀ (vals : List Cell) (existing : List String),
    (specAccept existing vals).length
      = ((vals.filterMap cleanLower).toFinset.filter
          (fun l => l ∉ existing)).card := by
  intro vals
  induction vals with
  | nil => intro existing; simp [specAccept]
  | cons v rest ih =>
    intro existing
    cases hv : clean_value v with
    | none =>
      have hcl : cleanLower v = none := by simp [cleanLower, hv]
      rw [specAccept_cons_none hv, List.filterMap_cons_none hcl]
      exact ih existing
    | some vc =>
      have hcl : cleanLower v = some (pyToLower vc) := by simp [cleanLower, hv]
      rw [List.filterMap_cons_some hcl, List.toFinset_cons, Finset.filter_insert]
      by_cases hm : pyToLower vc ∈ existing
      · rw [specAccept_cons_mem hv hm, if_neg (by simp [hm])]
        exact ih existing
      · rw [specAccept_cons_new hv hm, if_pos (by simp [hm])]
        have hins : insert (pyToLower vc)
            ((rest.filterMap cleanLower).toFinset.filter (fun l => l ∉ existing))
            = insert (pyToLower vc)
              (((rest.filterMap cleanLower).toFinset.filter
                (fun l => l ∉ existing)).erase (pyToLower vc)) := by
          ext x
          simp only [Finset.mem_insert, Finset.mem_erase]
          constructor
          · rintro (rfl | hx)
            · exact Or.inl rfl
            · by_cases hxl : x = pyToLower vc
              · exact Or.inl hxl
              · exact Or.inr ⟨hxl, hx⟩
          · rintro (rfl | ⟨_, hx⟩)
            · exact Or.inl rfl
            · exact Or.inr hx
        rw [hins, Finset.card_insert_of_not_mem (by simp), List.length_cons,
          ih (pyToLower vc :: existing)]
        congr 1
        have hset : (rest.filterMap cleanLower).toFinset.filter
              (fun x => x ∉ pyToLower vc :: existing)
            = ((rest.filterMap cleanLower).toFinset.filter
              (fun l => l ∉ existing)).erase (pyToLower vc) := by
          ext x
          simp only [Finset.mem_filter, Finset.mem_erase, List.mem_cons]
          tauto
        rw [hset]

/-- The free test of `on_stats` agrees with "claimed-by cell is empty". -/
theorem freeB_iff (r : List String) : freeB r = decide (r.getD 1 "" = "") := by
  unfold freeB
  by_cases h : r.length < 2
  · have h1 : r.getD 1 "" = "" := List.getD_eq_default _ _ (by omega)
    rw [List.getD_eq_getElem?_getD] at h1
    simp [h, h1]
  · simp [h]

theorem statsWindows_eq (now : Int) : ∀ recs : List (List String),
    statsWindows now recs
      = (recs.countP (inWindow now 86400),
         recs.countP (inWindow now 604800),
         recs.countP (inWindow now 2592000)) := by
  intro recs
  induction recs with
  | nil => simp [statsWindows]
  | cons r rest ih =>
    by_cases hg : 4 ≤ r.length ∧ r.getD 3 "" ≠ ""
    · cases hpt : parseTs (r.getD 3 "") with
      | none =>
        have hw : ∀ win, inWindow now win r = false := by
          intro win
          unfold inWindow
          rw [hpt]
        simp only [statsWindows, if_pos hg, hpt, ih,
          List.countP_cons, hw, Bool.false_eq_true, if_false, add_zero]
      | some t =>
        have hw : ∀ win, inWindow now win r = decide (now - win ≤ t) := by
          intro win
          unfold inWindow
          rw [hpt]
        simp only [statsWindows, if_pos hg, hpt, ih, List.countP_cons, hw,
          decide_eq_true_eq]
        refine Prod.ext ?_ (Prod.ext ?_ ?_) <;> simp <;> split_ifs <;> omega
    · have hcell : r.getD 3 "" = "" := by
        by_cases hl : 4 ≤ r.length
        · by_contra hne
          exact hg ⟨hl, hne⟩
        · exact List.getD_eq_default _ _ (by omega)
      have hw : ∀ win, inWindow now win r = false := by
        intro win
        unfold inWindow
        rw [hcell]
        rfl
      simp only [statsWindows, if_neg hg, ih, List.countP_cons, hw,
        Bool.false_eq_true, if_false, add_zero]

/-- An allocation for `uid` never changes another user's claim count. -/
theorem allocate_count_other {uid uid' : Int} (hne : uid' ≠ uid)
    (base extra : Nat) (rows : List (List String)) (uname now : String) :
    _count_user_records (allocate_for_user base extra rows uid uname now).rows uid'
      = _count_user_records rows uid' := by
  simp only [allocate_for_user]
  split_ifs with h1 h2 h3
  · rfl
  · rfl
  · rfl
  · show ((_assign_records_csv rows (base + extra - _count_user_records rows uid)
        uid uname now).1.drop 1).countP (claimedByB uid') = _
    rw [_assign_records_csv_countP, if_neg hne, add_zero]

/-- An allocation for `uid` leaves that user's claim count at most the
previous count or the allowance, whichever is larger. -/
theorem allocate_count_self (base extra : Nat) (rows : List (List String))
    (uid : Int) (uname now : String) :
    _count_user_records (allocate_for_user base extra rows uid uname now).rows uid
      ≤ max (_count_user_records rows uid) (base + extra) := by
  simp only [allocate_for_user]
  split_ifs with h1 h2 h3
  · exact le_max_left _ _
  · exact le_max_left _ _
  · exact le_max_left _ _
  · have hc := _assign_records_csv_countP rows
      (base + extra - _count_user_records rows uid) uid uname now uid
    have hlen : ((claimableRecs (rows.drop 1)).take
        (base + extra - _count_user_records rows uid)).length
        ≤ base + extra - _count_user_records rows uid := by
      rw [List.length_take]
      omega
    show ((_assign_records_csv rows (base + extra - _count_user_records rows uid)
        uid uname now).1.drop 1).countP (claimedByB uid) ≤ _
    rw [hc, if_pos rfl]
    have hmax : _count_user_records rows uid ≤ max (_count_user_records rows uid)
        (base + extra) := le_max_left _ _
    have hmax2 : base + extra ≤ max (_count_user_records rows uid) (base + extra) :=
      le_max_right _ _
    omega

theorem claimedByB_mkRow (uid' : Int) (v : String) :
    claimedByB uid' [v, "", "", ""] = false := by
  simp [claimedByB]

/-- An import changes no claim count. -/
theorem import_count (rows : List (List String)) (vals : List Cell) (uid' : Int) :
    _count_user_records (_add_new_values rows vals).1 uid'
      = _count_user_records rows uid' := by
  unfold _add_new_values
  rw [addGo_spec]
  unfold _count_user_records
  have hz : ∀ l : List String,
      (l.map (fun v => [v, "", "", ""])).countP (claimedByB uid') = 0 := by
    intro l
    refine List.countP_eq_zero.2 ?_
    intro a ha
    rcases List.mem_map.1 ha with ⟨v, _, rfl⟩
    simp [claimedByB_mkRow]
  cases rows with
  | nil =>
    simp only [List.nil_append]
    have hle := List.Sublist.countP_le (claimedByB uid')
      (List.drop_sublist 1 ((specAccept (_get_existing_values []) vals).map
        (fun v => [v, "", "", ""])))
    rw [hz] at hle
    simp only [List.drop_nil, List.countP_nil]
    omega
  | cons r rs =>
    simp only [List.cons_append, List.drop_succ_cons, List.drop_zero]
    rw [List.countP_append, hz, add_zero]

/-- Every operation except a raw extra-limit overwrite preserves the
quota invariant. -/
theorem applyOp_preserves (base : Nat) (s : PoolState) (op : Op)
    (hInv : Inv base s) (hop : isSetExtra op = false) :
    Inv base (applyOp base s op) := by
  cases op with
  | alloc uid uname now =>
    intro uid'
    show _count_user_records
        (allocate_for_user base (s.extra uid) s.rows uid uname now).rows uid'
      ≤ base + s.extra uid'
    rcases eq_or_ne uid' uid with rfl | hne
    · have h1 := allocate_count_self base (s.extra uid') s.rows uid' uname now
      have h2 := hInv uid'
      omega
    · rw [allocate_count_other hne]
      exact hInv uid'
  | imp vals =>
    intro uid'
    show _count_user_records (_add_new_values s.rows vals).1 uid'
      ≤ base + s.extra uid'
    rw [import_count]
    exact hInv uid'
  | unlock uid =>
    show Inv base (if 1 ≤ _count_user_records s.rows uid
        ∧ base + s.extra uid ≤ _count_user_records s.rows uid then _ else s)
    split_ifs with hg
    · intro uid'
      show _count_user_records s.rows uid'
        ≤ base + (if uid' = uid then _count_user_records s.rows uid else s.extra uid')
      rcases eq_or_ne uid' uid with rfl | hne
      · rw [if_pos rfl]
        omega
      · rw [if_neg hne]
        exact hInv uid'
    · exact hInv
  | setExtra uid v => simp [isSetExtra] at hop

/-- Any sequence of allocate, import and unlock operations preserves the
quota invariant. -/
theorem run_preserves (base : Nat) : ∀ (ops : List Op) (s : PoolState),
    Inv base s → (∀ op ∈ ops, isSetExtra op = false) →
    Inv base (run base s ops) := by
  intro ops
  induction ops with
  | nil => intro s hInv _; exact hInv
  | cons op rest ih =>
    intro s hInv hops
    show Inv base (run base (applyOp base s op) rest)
    refine ih _ (applyOp_preserves base s op hInv (hops op (List.mem_cons_self _ _))) ?_
    intro o ho
    exact hops o (List.mem_cons_of_mem _ ho)

/-- C1, counterexample: with base limit 1, a fresh identity and a pool
whose single unclaimed row has an empty value, the supply check passes
(`remaining = 1 ≤ free = 1`) yet allocation returns success with zero
claimed values — a success batch smaller than `remaining`, contradicting
the claim. -/
theorem claim_C1_counterexample :
    _count_user_records [["Value", "ID", "Username", "Date"], ["", "", "", ""]] 7
        < 1 + 0
    ∧ 1 + 0 - _count_user_records
          [["Value", "ID", "Username", "Date"], ["", "", "", ""]] 7
        ≤ [["Value", "ID", "Username", "Date"], ["", "", "", ""]].countP freeB
    ∧ (allocate_for_user 1 0 [["Value", "ID", "Username", "Date"], ["", "", "", ""]]
        7 "u" "t").reason = none
    ∧ (allocate_for_user 1 0 [["Value", "ID", "Username", "Date"], ["", "", "", ""]]
        7 "u" "t").taken.length
      < 1 + 0 - _count_user_records
          [["Value", "ID", "Username", "Date"], ["", "", "", ""]] 7 := by
  decide

/-- C1 (amended): when `already_claimed < total_allowance` and the supply
check counts at least `remaining` free rows, allocate returns outcome
success and claims the values (in storage order, normalized) of the
first `min remaining k` unclaimed records with non-empty normalized
value, where `k` is the number of such records; the batch equals
`remaining` exactly when enough counted-free rows have non-empty values,
but is smaller when free rows normalize to empty. -/
theorem claim_C1_amended (base extra : Nat) (rows : List (List String))
    (uid : Int) (uname now : String)
    (hq : _count_user_records rows uid < base + extra)
    (hs : base + extra - _count_user_records rows uid ≤ rows.countP freeB) :
    (allocate_for_user base extra rows uid uname now).reason = none
    ∧ (allocate_for_user base extra rows uid uname now).taken
        = (claimableRecs (rows.drop 1)).take
            (base + extra - _count_user_records rows uid) := by
  simp only [allocate_for_user]
  rw [if_neg (by omega), if_neg (by omega)]
  exact ⟨rfl, _assign_records_csv_taken rows _ uid uname now⟩

/-- C1 witness: the amended statement applied to a concrete pool of two
unclaimed rows with base limit 1. -/
theorem claim_C1_witness :
    (_count_user_records [["Value", "ID", "Username", "Date"],
        ["a", "", "", ""], ["b", "", "", ""]] 7 < 1 + 0
      ∧ 1 + 0 - _count_user_records [["Value", "ID", "Username", "Date"],
          ["a", "", "", ""], ["b", "", "", ""]] 7
        ≤ [["Value", "ID", "Username", "Date"],
            ["a", "", "", ""], ["b", "", "", ""]].countP freeB)
    ∧ ((allocate_for_user 1 0 [["Value", "ID", "Username", "Date"],
          ["a", "", "", ""], ["b", "", "", ""]] 7 "u" "t").reason = none
      ∧ (allocate_for_user 1 0 [["Value", "ID", "Username", "Date"],
          ["a", "", "", ""], ["b", "", "", ""]] 7 "u" "t").taken
        = (claimableRecs ([["Value", "ID", "Username", "Date"],
            ["a", "", "", ""], ["b", "", "", ""]].drop 1)).take
            (1 + 0 - _count_user_records [["Value", "ID", "Username", "Date"],
              ["a", "", "", ""], ["b", "", "", ""]] 7)) :=
  ⟨⟨by decide, by decide⟩,
    claim_C1_amended 1 0 [["Value", "ID", "Username", "Date"],
      ["a", "", "", ""], ["b", "", "", ""]] 7 "u" "t" (by decide) (by decide)⟩

/-- C4: allocation returns `already_got` exactly when the identity
already holds its full allowance, in that case with an empty batch; any
refusal (`already_got` or `not_enough`) leaves the stored rows untouched
and performs no write. -/
theorem claim_C4 (base extra : Nat) (rows : List (List String)) (uid : Int)
    (uname now : String) :
    ((allocate_for_user base extra rows uid uname now).reason
        = some "already_got"
      ↔ base + extra ≤ _count_user_records rows uid)
    ∧ ((allocate_for_user base extra rows uid uname now).reason
        = some "already_got"
      → (allocate_for_user base extra rows uid uname now).taken = [])
    ∧ ((allocate_for_user base extra rows uid uname now).reason ≠ none
      → (allocate_for_user base extra rows uid uname now).rows = rows
        ∧ (allocate_for_user base extra rows uid uname now).wrote = false
        ∧ (allocate_for_user base extra rows uid uname now).taken = []) := by
  by_cases h1 : _count_user_records rows uid ≥ base + extra
  · simp only [allocate_for_user, if_pos h1]
    exact ⟨⟨fun _ => h1, fun _ => trivial⟩, fun _ => trivial,
      fun _ => ⟨trivial, trivial, trivial⟩⟩
  · by_cases h2 : rows.countP freeB < base + extra - _count_user_records rows uid
    · simp only [allocate_for_user, if_neg h1, if_pos h2]
      exact ⟨⟨fun h => absurd (Option.some.inj h) (by decide), fun h => absurd h h1⟩,
        fun h => absurd (Option.some.inj h) (by decide),
        fun _ => ⟨trivial, trivial, trivial⟩⟩
    · simp only [allocate_for_user, if_neg h1, if_neg h2]
      exact ⟨⟨fun h => absurd h (by simp), fun h => absurd h h1⟩,
        fun h => absurd h (by simp), fun h => absurd rfl h⟩

/-- C10: whenever the quota and supply checks pass, the outcome is
success even if the claiming scan takes nothing; the pool file is
rewritten exactly when at least one record was claimed, and with an
empty batch the stored rows are unchanged. -/
theorem claim_C10 (base extra : Nat) (rows : List (List String)) (uid : Int)
    (uname now : String)
    (hq : _count_user_records rows uid < base + extra)
    (hs : base + extra - _count_user_records rows uid ≤ rows.countP freeB) :
    (allocate_for_user base extra rows uid uname now).reason = none
    ∧ ((allocate_for_user base extra rows uid uname now).wrote = true
      ↔ (allocate_for_user base extra rows uid uname now).taken ≠ [])
    ∧ ((allocate_for_user base extra rows uid uname now).taken = []
      → (allocate_for_user base extra rows uid uname now).rows = rows) := by
  simp only [allocate_for_user]
  rw [if_neg (by omega), if_neg (by omega)]
  refine ⟨rfl, ?_, ?_⟩
  · show (!(_assign_records_csv rows _ uid uname now).2.isEmpty) = true
      ↔ (_assign_records_csv rows _ uid uname now).2 ≠ []
    simp [List.isEmpty_iff]
  · intro h
    show (if (_assign_records_csv rows _ uid uname now).2.isEmpty then rows else _)
      = rows
    have h2 : (_assign_records_csv rows
        (base + extra - _count_user_records rows uid) uid uname now).2 = [] := h
    rw [if_pos (by simp [List.isEmpty_iff, h2])]

/-- C10 witness: the pool whose only free row has an empty value — the
checks pass, zero records are claimed, the outcome is success and no
write happens. -/
theorem claim_C10_witness :
    (_count_user_records [["Value", "ID", "Username", "Date"],
        ["", "", "", ""]] 7 < 1 + 0
      ∧ 1 + 0 - _count_user_records [["Value", "ID", "Username", "Date"],
          ["", "", "", ""]] 7
        ≤ [["Value", "ID", "Username", "Date"], ["", "", "", ""]].countP freeB)
    ∧ ((allocate_for_user 1 0 [["Value", "ID", "Username", "Date"],
          ["", "", "", ""]] 7 "u" "t").reason = none
      ∧ ((allocate_for_user 1 0 [["Value", "ID", "Username", "Date"],
          ["", "", "", ""]] 7 "u" "t").wrote = true
        ↔ (allocate_for_user 1 0 [["Value", "ID", "Username", "Date"],
          ["", "", "", ""]] 7 "u" "t").taken ≠ [])
      ∧ ((allocate_for_user 1 0 [["Value", "ID", "Username", "Date"],
          ["", "", "", ""]] 7 "u" "t").taken = []
        → (allocate_for_user 1 0 [["Value", "ID", "Username", "Date"],
          ["", "", "", ""]] 7 "u" "t").rows
          = [["Value", "ID", "Username", "Date"], ["", "", "", ""]])) :=
  ⟨⟨by decide, by decide⟩,
    claim_C10 1 0 [["Value", "ID", "Username", "Date"], ["", "", "", ""]]
      7 "u" "t" (by decide) (by decide)⟩

/-- C2, counterexample: from a state satisfying the invariant (identity 7
holds 2 records, base 1, extra 1), a single `set_user_extra_limit`
overwrite to 0 leaves 2 claimed records against an allowance of 1, so
the bound fails after a sequence including a set-extra-limit. -/
theorem claim_C2_counterexample :
    Inv 1 ⟨[["Value", "ID", "Username", "Date"],
        ["a", "7", "u", "t"], ["b", "7", "u", "t"]],
      fun u => if u = 7 then 1 else 0⟩
    ∧ ¬ Inv 1 (run 1 ⟨[["Value", "ID", "Username", "Date"],
        ["a", "7", "u", "t"], ["b", "7", "u", "t"]],
      fun u => if u = 7 then 1 else 0⟩ [Op.setExtra 7 0]) := by
  constructor
  · intro uid
    show _count_user_records [["Value", "ID", "Username", "Date"],
        ["a", "7", "u", "t"], ["b", "7", "u", "t"]] uid
      ≤ 1 + (if uid = 7 then 1 else 0)
    by_cases h : uid = 7
    · subst h
      rw [if_pos rfl]
      decide
    · rw [if_neg h]
      have h7 : parsePyInt "7" = some 7 := by decide
      have hrow : ∀ v un ti, claimedByB uid [v, "7", un, ti] = false := by
        intro v un ti
        unfold claimedByB
        simp only [decide_eq_false_iff_not]
        intro hc
        rw [show ([v, "7", un, ti].getD 1 "") = "7" from rfl, h7] at hc
        exact h (Option.some.inj hc.2).symm
      unfold _count_user_records
      simp only [List.drop_succ_cons, List.drop_zero, List.countP_cons,
        List.countP_nil, hrow, Bool.false_eq_true, if_false]
      omega
  · intro hInv
    exact absurd (hInv 7) (by decide)

/-- C2 (amended): for every pool and identity, after any sequence of
allocate, import and unlock operations starting from a state satisfying
it, the number of records claimed by an identity is at most
`base_limit + extra_limit`; a `set_user_extra_limit` overwrite can lower
the allowance below an existing claim count and break the bound. -/
theorem claim_C2_amended (base : Nat) (s : PoolState) (ops : List Op)
    (hInv : Inv base s) (hops : ∀ op ∈ ops, isSetExtra op = false) :
    Inv base (run base s ops) :=
  run_preserves base ops s hInv hops

/-- C2 witness: the amended invariant applied to a concrete state and a
concrete sequence of an unlock, an import and an allocation. -/
theorem claim_C2_witness :
    (Inv 1 ⟨[["Value", "ID", "Username", "Date"]], fun _ => 0⟩
      ∧ ∀ op ∈ [Op.unlock 3, Op.imp [Cell.str "x"], Op.alloc 3 "u" "t"],
          isSetExtra op = false)
    ∧ Inv 1 (run 1 ⟨[["Value", "ID", "Username", "Date"]], fun _ => 0⟩
        [Op.unlock 3, Op.imp [Cell.str "x"], Op.alloc 3 "u" "t"]) :=
  ⟨⟨fun _ => Nat.zero_le _, by decide⟩,
    claim_C2_amended 1 ⟨[["Value", "ID", "Username", "Date"]], fun _ => 0⟩
      [Op.unlock 3, Op.imp [Cell.str "x"], Op.alloc 3 "u" "t"]
      (fun _ => Nat.zero_le _) (by decide)⟩

/-- C5: for an identity holding at least one claim in a pool, the
`/clear` unlock sets the pool's extra limit to the identity's current
claim count exactly when the current allowance is exhausted (making the
new allowance `already_claimed + base_limit`); otherwise it changes
nothing; rows and other identities' entries are untouched either way. -/
theorem claim_C5 (base : Nat) (s : PoolState) (uid : Int)
    (hclaims : 1 ≤ _count_user_records s.rows uid) :
    ((applyOp base s (Op.unlock uid)).extra uid
      = (if base + s.extra uid ≤ _count_user_records s.rows uid
         then _count_user_records s.rows uid else s.extra uid))
    ∧ (base + s.extra uid ≤ _count_user_records s.rows uid
      → base + (applyOp base s (Op.unlock uid)).extra uid
          = _count_user_records s.rows uid + base)
    ∧ (applyOp base s (Op.unlock uid)).rows = s.rows
    ∧ ∀ u, u ≠ uid → (applyOp base s (Op.unlock uid)).extra u = s.extra u := by
  have hred : applyOp base s (Op.unlock uid)
      = (if 1 ≤ _count_user_records s.rows uid
            ∧ base + s.extra uid ≤ _count_user_records s.rows uid
         then { s with extra := fun u => if u = uid
                 then _count_user_records s.rows uid else s.extra u }
         else s) := rfl
  rw [hred]
  by_cases hg : base + s.extra uid ≤ _count_user_records s.rows uid
  · rw [if_pos ⟨hclaims, hg⟩]
    refine ⟨?_, fun _ => ?_, rfl, fun u hu => ?_⟩
    · show (if uid = uid then _count_user_records s.rows uid else s.extra uid)
        = (if base + s.extra uid ≤ _count_user_records s.rows uid
           then _count_user_records s.rows uid else s.extra uid)
      rw [if_pos rfl, if_pos hg]
    · show base + (if uid = uid then _count_user_records s.rows uid else s.extra uid)
        = _count_user_records s.rows uid + base
      rw [if_pos rfl]
      omega
    · show (if u = uid then _count_user_records s.rows uid else s.extra u) = s.extra u
      rw [if_neg hu]
  · rw [if_neg (fun hand => hg hand.2)]
    exact ⟨by rw [if_neg hg], fun hc => absurd hc hg, rfl, fun u _ => rfl⟩

/-- C5 witness: unlock applied to an identity that exhausted a base
limit of 1 (one claimed record, extra 0). -/
theorem claim_C5_witness :
    (1 ≤ _count_user_records [["Value", "ID", "Username", "Date"],
        ["a", "5", "u", "t"]] 5)
    ∧ (((applyOp 1 ⟨[["Value", "ID", "Username", "Date"], ["a", "5", "u", "t"]],
          fun _ => 0⟩ (Op.unlock 5)).extra 5
        = (if 1 + (0 : Nat) ≤ _count_user_records
              [["Value", "ID", "Username", "Date"], ["a", "5", "u", "t"]] 5
           then _count_user_records
              [["Value", "ID", "Username", "Date"], ["a", "5", "u", "t"]] 5
           else 0))
      ∧ (1 + (0 : Nat) ≤ _count_user_records
            [["Value", "ID", "Username", "Date"], ["a", "5", "u", "t"]] 5
        → 1 + (applyOp 1 ⟨[["Value", "ID", "Username", "Date"],
              ["a", "5", "u", "t"]], fun _ => 0⟩ (Op.unlock 5)).extra 5
            = _count_user_records [["Value", "ID", "Username", "Date"],
                ["a", "5", "u", "t"]] 5 + 1)
      ∧ (applyOp 1 ⟨[["Value", "ID", "Username", "Date"], ["a", "5", "u", "t"]],
          fun _ => 0⟩ (Op.unlock 5)).rows
          = [["Value", "ID", "Username", "Date"], ["a", "5", "u", "t"]]
      ∧ ∀ u, u ≠ (5 : Int)
        → (applyOp 1 ⟨[["Value", "ID", "Username", "Date"], ["a", "5", "u", "t"]],
            fun _ => 0⟩ (Op.unlock 5)).extra u = 0) :=
  ⟨by decide,
    claim_C5 1 ⟨[["Value", "ID", "Username", "Date"], ["a", "5", "u", "t"]],
      fun _ => 0⟩ 5 (by decide)⟩

/-- C3: claim fields are written at most once.  An allocation never
touches a row whose `claimed_by` cell is non-empty — such a row keeps
value, identity, label and timestamp (every field read with default
`""`) at its position — and an import leaves every pre-existing record
(claimed or not) exactly in place. -/
theorem claim_C3 (base extra : Nat) (rows : List (List String)) (uid : Int)
    (uname now : String) (vals : List Cell) (i : Nat) (r0 : List String)
    (hget : rows[i]? = some r0) (hclaim : r0.getD 1 "" ≠ "") :
    (∃ r1, (allocate_for_user base extra rows uid uname now).rows[i]? = some r1
      ∧ ∀ j, r1.getD j "" = r0.getD j "")
    ∧ (_add_new_values rows vals).1[i]? = some r0 := by
  constructor
  · by_cases h1 : _count_user_records rows uid ≥ base + extra
    · simp only [allocate_for_user, if_pos h1]
      exact ⟨r0, hget, fun j => rfl⟩
    · by_cases h2 : rows.countP freeB < base + extra - _count_user_records rows uid
      · simp only [allocate_for_user, if_neg h1, if_pos h2]
        exact ⟨r0, hget, fun j => rfl⟩
      · simp only [allocate_for_user, if_neg h1, if_neg h2]
        by_cases h3 : (_assign_records_csv rows
            (base + extra - _count_user_records rows uid) uid uname now).2.isEmpty
        · refine ⟨r0, ?_, fun j => rfl⟩
          show (if (_assign_records_csv rows
              (base + extra - _count_user_records rows uid) uid uname now).2.isEmpty
            then rows else _)[i]? = some r0
          rw [if_pos h3]
          exact hget
        · obtain ⟨r1, hr1, hj⟩ := _assign_records_csv_preserves_claimed rows
            (base + extra - _count_user_records rows uid) uid uname now i r0
            hget hclaim
          refine ⟨r1, ?_, hj⟩
          show (if (_assign_records_csv rows
              (base + extra - _count_user_records rows uid) uid uname now).2.isEmpty
            then rows else (_assign_records_csv rows
              (base + extra - _count_user_records rows uid) uid uname now).1)[i]?
            = some r1
          rw [if_neg h3]
          exact hr1
  · unfold _add_new_values
    rw [addGo_spec]
    have hi : i < rows.length := (List.getElem?_eq_some_iff.1 hget).1
    rw [List.getElem?_append, if_pos hi]
    exact hget

/-- C3 witness: a pool whose second row is claimed by identity 5; an
allocation for identity 7 and an import both leave it intact. -/
theorem claim_C3_witness :
    ([["Value", "ID", "Username", "Date"], ["a", "5", "u", "t"]][1]?
        = some ["a", "5", "u", "t"]
      ∧ (["a", "5", "u", "t"].getD 1 "" ≠ ""))
    ∧ ((∃ r1, (allocate_for_user 1 0 [["Value", "ID", "Username", "Date"],
          ["a", "5", "u", "t"]] 7 "un" "ti").rows[1]? = some r1
        ∧ ∀ j, r1.getD j "" = ["a", "5", "u", "t"].getD j "")
      ∧ (_add_new_values [["Value", "ID", "Username", "Date"],
          ["a", "5", "u", "t"]] [Cell.str "b"]).1[1]?
          = some ["a", "5", "u", "t"]) :=
  ⟨⟨by decide, by decide⟩,
    claim_C3 1 0 [["Value", "ID", "Username", "Date"], ["a", "5", "u", "t"]]
      7 "un" "ti" [Cell.str "b"] 1 ["a", "5", "u", "t"] (by decide) (by decide)⟩

/-- C6: the import adds exactly the candidates accepted by the spec's
dedup rule — normalized value present, its lowercased form absent from
the pool's existing stripped lowercased values and from every earlier
accepted candidate (first occurrence wins) — appending them in order,
and reports their number; in particular `["Foo", "foo", "FOO"]` into an
empty pool adds exactly one record. -/
theorem claim_C6 (rows : List (List String)) (vals : List Cell) :
    ((_add_new_values rows vals).1
        = rows ++ (specAccept (_get_existing_values rows) vals).map
            (fun v => [v, "", "", ""])
      ∧ (_add_new_values rows vals).2
        = (specAccept (_get_existing_values rows) vals).length)
    ∧ (_add_new_values [["Value", "ID", "Username", "Date"]]
        [Cell.str "Foo", Cell.str "foo", Cell.str "FOO"]).2 = 1 := by
  refine ⟨?_, by decide⟩
  unfold _add_new_values
  rw [addGo_spec]
  exact ⟨rfl, by simp⟩

/-- C7, counterexample: importing the single candidate `"= a"` twice into
a fresh pool adds a record both times (the second import reports 1, not
0, and grows the pool), because the stored value `" a"` is re-read
stripped while the in-batch set kept it unstripped. -/
theorem claim_C7_counterexample :
    (_add_new_values [["Value", "ID", "Username", "Date"]] [Cell.str "= a"]).2 = 1
    ∧ (_add_new_values (_add_new_values [["Value", "ID", "Username", "Date"]]
        [Cell.str "= a"]).1 [Cell.str "= a"]).2 = 1
    ∧ (_add_new_values (_add_new_values [["Value", "ID", "Username", "Date"]]
        [Cell.str "= a"]).1 [Cell.str "= a"]).1
      ≠ (_add_new_values [["Value", "ID", "Username", "Date"]]
        [Cell.str "= a"]).1 := by
  decide

/-- C7 (amended): for a pool that has its header row and a batch none of
whose normalized values carries leading whitespace (as happens only for
candidates like `"= x"`), import is idempotent: the first run adds
`N` = the number of distinct normalized lowercased candidate values not
already present, and an immediate identical rerun adds 0 and leaves the
pool unchanged. -/
theorem claim_C7_amended (rows : List (List String)) (vals : List Cell)
    (hrows : rows ≠ [])
    (htrim : ∀ v ∈ vals, ∀ vc, clean_value v = some vc → pyStrip vc = vc) :
    (_add_new_values rows vals).2
      = ((vals.filterMap cleanLower).toFinset.filter
          (fun l => l ∉ _get_existing_values rows)).card
    ∧ (_add_new_values (_add_new_values rows vals).1 vals).2 = 0
    ∧ (_add_new_values (_add_new_values rows vals).1 vals).1
        = (_add_new_values rows vals).1 := by
  have hfirst := addGo_spec vals rows (_get_existing_values rows) 0
  have hnil : specAccept (_get_existing_values
      (rows ++ (specAccept (_get_existing_values rows) vals).map
        (fun v => [v, "", "", ""]))) vals = [] := by
    rw [gev_append rows hrows]
    refine specAccept_nil_of_covered vals (_get_existing_values rows) _ ?_ ?_
    · intro x hx
      exact List.mem_append_left _ hx
    · intro a ha
      refine List.mem_append_right _ ?_
      refine List.mem_filterMap.2 ⟨a, ha, ?_⟩
      obtain ⟨v, hv, hcv⟩ := specAccept_mem vals _ a ha
      rw [if_pos (clean_value_ne_empty hcv), htrim v hv a hcv]
  refine ⟨?_, ?_, ?_⟩
  · unfold _add_new_values
    rw [hfirst]
    simp [specAccept_length]
  · unfold _add_new_values
    rw [addGo_spec, hfirst]
    show (0 : Nat) + (specAccept (_get_existing_values
      (rows ++ (specAccept (_get_existing_values rows) vals).map
        (fun v => [v, "", "", ""]))) vals).length = 0
    rw [hnil]
    rfl
  · unfold _add_new_values
    rw [addGo_spec, hfirst]
    show rows ++ _ ++ (specAccept (_get_existing_values
        (rows ++ (specAccept (_get_existing_values rows) vals).map
          (fun v => [v, "", "", ""]))) vals).map (fun v => [v, "", "", ""])
      = rows ++ _
    rw [hnil]
    simp

/-- C7 witness: a batch with distinct normalized values and no leading
whitespace, imported twice into a fresh pool. -/
theorem claim_C7_witness :
    ([["Value", "ID", "Username", "Date"]] ≠ ([] : List (List String))
      ∧ ∀ v ∈ [Cell.str "b", Cell.str "B"], ∀ vc,
          clean_value v = some vc → pyStrip vc = vc)
    ∧ ((_add_new_values [["Value", "ID", "Username", "Date"]]
          [Cell.str "b", Cell.str "B"]).2
        = (([Cell.str "b", Cell.str "B"].filterMap cleanLower).toFinset.filter
            (fun l => l ∉ _get_existing_values
              [["Value", "ID", "Username", "Date"]])).card
      ∧ (_add_new_values (_add_new_values [["Value", "ID", "Username", "Date"]]
          [Cell.str "b", Cell.str "B"]).1 [Cell.str "b", Cell.str "B"]).2 = 0
      ∧ (_add_new_values (_add_new_values [["Value", "ID", "Username", "Date"]]
          [Cell.str "b", Cell.str "B"]).1 [Cell.str "b", Cell.str "B"]).1
        = (_add_new_values [["Value", "ID", "Username", "Date"]]
          [Cell.str "b", Cell.str "B"]).1) :=
  ⟨⟨by decide, by
    intro v hv vc hvc
    rcases List.mem_cons.1 hv with rfl | hv2
    · rw [show clean_value (Cell.str "b") = some "b" from by decide] at hvc
      injection hvc with hvc
      rw [← hvc]
      decide
    · rcases List.mem_cons.1 hv2 with rfl | hv3
      · rw [show clean_value (Cell.str "B") = some "B" from by decide] at hvc
        injection hvc with hvc
        rw [← hvc]
        decide
      · exact absurd hv3 (List.not_mem_nil v)⟩,
    claim_C7_amended [["Value", "ID", "Username", "Date"]]
      [Cell.str "b", Cell.str "B"] (by decide) (by
        intro v hv vc hvc
        rcases List.mem_cons.1 hv with rfl | hv2
        · rw [show clean_value (Cell.str "b") = some "b" from by decide] at hvc
          injection hvc with hvc
          rw [← hvc]
          decide
        · rcases List.mem_cons.1 hv2 with rfl | hv3
          · rw [show clean_value (Cell.str "B") = some "B" from by decide] at hvc
            injection hvc with hvc
            rw [← hvc]
            decide
          · exact absurd hv3 (List.not_mem_nil v))⟩

/-- C8: import only appends — the pre-existing prefix of the pool is
kept byte-for-byte in place, and everything after it consists of fresh
records with a non-empty value and empty claim fields. -/
theorem claim_C8 (rows : List (List String)) (vals : List Cell) :
    (_add_new_values rows vals).1.take rows.length = rows
    ∧ ∀ r ∈ (_add_new_values rows vals).1.drop rows.length,
        ∃ v, v ≠ "" ∧ r = [v, "", "", ""] := by
  unfold _add_new_values
  rw [addGo_spec]
  constructor
  · exact List.take_left rows _
  · rw [List.drop_left]
    intro r hr
    rcases List.mem_map.1 hr with ⟨v, hv, rfl⟩
    obtain ⟨c, _, hcv⟩ := specAccept_mem vals _ v hv
    exact ⟨v, clean_value_ne_empty hcv, rfl⟩

/-- C9: the statistics computation (a pure read) reports `free` as the
number of records with an empty claimed-by cell, `total` as the number
of records, and for each of the day/week/month windows the number of
records whose parsed claim timestamp `t` satisfies `now - window ≤ t`
(inclusive lower bound). -/
theorem claim_C9 (rows : List (List String)) (now : Int) :
    (on_stats_pool rows now).1
        = (rows.drop 1).countP (fun r => decide (r.getD 1 "" = ""))
    ∧ (on_stats_pool rows now).2.1 = rows.length - 1
    ∧ (on_stats_pool rows now).2.2.1
        = (rows.drop 1).countP (inWindow now 86400)
    ∧ (on_stats_pool rows now).2.2.2.1
        = (rows.drop 1).countP (inWindow now 604800)
    ∧ (on_stats_pool rows now).2.2.2.2
        = (rows.drop 1).countP (inWindow now 2592000) := by
  unfold on_stats_pool
  rw [statsWindows_eq]
  refine ⟨?_, rfl, rfl, rfl, rfl⟩
  rw [show freeB = (fun r => decide (r.getD 1 "" = "")) from funext freeB_iff]

end PoolBot
